import Mathlib

/-
Verification of the page lifecycle, tiered memory manager and copy-on-write
undo snapshot system of the NotesApp drawing surface (src/main.py).

The Python classes `Page` and `Canvas` are shallowly embedded as Lean
structures with pure state-passing operations.  Raster pixel buffers are
modelled as a free algebra over the operations the core performs on them
(blank fill on construction, line strokes from the pen/eraser tools);
the rendering of the actual pixels is an external collaborator and out of
scope, so nothing is lost by this abstraction.  Where a Python operation
would raise an exception before mutating any state (for example indexing
an empty page list, or calling a pixmap method on `None`), the embedding
returns the state unchanged, mirroring the fact that the aborted Qt event
handler leaves the document as it was; each such branch is commented at
its definition site.
-/

namespace NotesApp

/-- Abstract high-resolution raster buffer (Python `QPixmap`).  A raster is
either the white-filled page created by `Page.__init__`, or the result of
drawing a line segment (given by its two endpoints in image coordinates)
on top of an existing raster, as done by the pen/eraser tool in
`Canvas.mouseMoveEvent`. -/
inductive Raster : Type
  | blank : Raster
  | drawn (base : Raster) (p1 p2 : Int × Int) : Raster
deriving DecidableEq

/-- Modelled from the spec: the lossless image codec (Qt PNG save/load) is an
external collaborator, not part of src/main.py; the spec requires only that
the encode step is lossless ("decode after encode must reproduce the raster
bit-for-bit").  We model the encoded byte blob as a wrapper that records the
encoded raster exactly, which is the faithful abstraction of any lossless
codec. -/
structure Bytes : Type where
  data : Raster
deriving DecidableEq

/-- Modelled from the spec: the lossless PNG encode primitive
(`high_res_pixmap.save(buff, "PNG")` in `Page.compress`). -/
def pngEncode (r : Raster) : Bytes := ⟨r⟩

/-- Modelled from the spec: the lossless PNG decode primitive
(`QImage.fromData(..., "PNG")` in `Page.decompress`). -/
def pngDecode (b : Bytes) : Raster := b.data

/-- Abstract low-resolution preview buffer (`preview_pixmap`).  A preview is
either a plain downscale of a raster, or a downscale with the red
"Compressed (PNG)" watermark stamped on it by `Page.compress`. -/
inductive PreviewImg : Type
  | plain (r : Raster)
  | stamped (r : Raster)
deriving DecidableEq

/-- Page height constant `IMG_HEIGHT` (src/main.py line 24). -/
def IMG_HEIGHT : Int := 2246

/-- Page width constant `IMG_WIDTH` (src/main.py line 23). -/
def IMG_WIDTH : Int := 1588

/-- View downscale factor `VIEW_SCALE` (src/main.py line 27). -/
def VIEW_SCALE : Int := 2

/-- Undo stack capacity `UNDO_LIMIT` (src/main.py line 32). -/
def UNDO_LIMIT : Nat := 5

/-- The `Page` class (src/main.py lines 34-111): one A4 page, holding either
an uncompressed raster (`high_res_pixmap`, present iff not compressed in a
well-formed page) or a lossless-encoded byte blob (`compressed_data`),
plus an always-present preview. -/
structure Page : Type where
  high_res_pixmap : Option Raster
  compressed_data : Option Bytes
  preview_pixmap : PreviewImg
  is_compressed : Bool
deriving DecidableEq

/-- `Page.__init__` (lines 38-49): white-filled raster unless a bitmap is
supplied, fresh preview, not compressed. -/
def Page.new (pixmap : Option Raster) : Page :=
  let r := match pixmap with
    | some px => px
    | none => Raster.blank
  { high_res_pixmap := some r
    compressed_data := none
    preview_pixmap := PreviewImg.plain r
    is_compressed := false }

/-- `Page.compress` (lines 51-79): no-op when already compressed; otherwise
regenerate the preview with the watermark, losslessly encode the raster
into `compressed_data`, and drop the raster.  The watermark is stamped on
the preview only; the bytes encode the unmarked raster.  When
`high_res_pixmap` is `None` the first statement of the Python body raises
`AttributeError` before mutating anything, so the page is returned
unchanged (this state is unreachable for well-formed pages). -/
def Page.compress (p : Page) : Page :=
  if p.is_compressed then p
  else
    match p.high_res_pixmap with
    | none => p
    | some r =>
      { high_res_pixmap := none
        compressed_data := some (pngEncode r)
        preview_pixmap := PreviewImg.stamped r
        is_compressed := true }

/-- `Page.decompress` (lines 81-90): no-op when not compressed; otherwise
decode the bytes back into the raster and drop the bytes.  When
`compressed_data` is `None` the Python call raises before mutating, so the
page is returned unchanged (unreachable for well-formed pages). -/
def Page.decompress (p : Page) : Page :=
  if p.is_compressed then
    match p.compressed_data with
    | none => p
    | some b =>
      { high_res_pixmap := some (pngDecode b)
        compressed_data := none
        preview_pixmap := p.preview_pixmap
        is_compressed := false }
  else p

/-- `Page.clone` (lines 92-111): a compressed page shares its byte blob and
preview with the clone; an active page is deep-copied.  The fresh `Page()`
allocated at the start of the Python body is fully overwritten in both
branches, so it does not appear here (the reference-level model below keeps
its allocations). -/
def Page.clone (p : Page) : Page :=
  if p.is_compressed then
    { high_res_pixmap := none
      compressed_data := p.compressed_data
      preview_pixmap := p.preview_pixmap
      is_compressed := true }
  else
    { high_res_pixmap := p.high_res_pixmap
      compressed_data := none
      preview_pixmap := p.preview_pixmap
      is_compressed := false }

/-- The pen/eraser stroke of `Canvas.mouseMoveEvent` (lines 377-389): draw a
line segment on the page raster.  A `None` pixmap would make the Python
`QPainter` constructor raise before mutating, so the page is returned
unchanged. -/
def Page.draw_line (p : Page) (p1 p2 : Int × Int) : Page :=
  match p.high_res_pixmap with
  | none => p
  | some r => { p with high_res_pixmap := some (Raster.drawn r p1 p2) }

/-- The preview refresh of `Canvas.mouseReleaseEvent` (lines 431-434):
regenerate the preview from the current raster, without a watermark. -/
def Page.update_preview (p : Page) : Page :=
  match p.high_res_pixmap with
  | none => p
  | some r => { p with preview_pixmap := PreviewImg.plain r }

/-- Page content check used to state the blank-document scenario: the page
of record (raster if active, decoded bytes if compressed) is the blank
white raster. -/
def Page.blank_content (p : Page) : Bool :=
  if p.is_compressed then
    match p.compressed_data with
    | some b => pngDecode b == Raster.blank
    | none => false
  else
    match p.high_res_pixmap with
    | some r => r == Raster.blank
    | none => false

/-- The `Canvas` state relevant to the page store and undo system
(src/main.py lines 174-200): the page sequence, the active page index
(a Python `int`, `-1` when no page is active), the undo stack of cloned
page sequences, and the in-progress-stroke state of the pen/eraser tool. -/
structure Canvas : Type where
  pages : List Page
  active_page_index : Int
  undo_stack : List (List Page)
  drawing : Bool
  last_point_img : Int × Int
deriving DecidableEq

/-- `Canvas.__init__` (lines 174-200): note that `self.pages = []` — the
page list starts empty (the `[Page()]` initializer is commented out in the
source), while `active_page_index` starts at 0. -/
def Canvas.init : Canvas :=
  { pages := []
    active_page_index := 0
    undo_stack := []
    drawing := false
    last_point_img := (0, 0) }

/-- `Canvas.to_image_coords` (lines 206-209): widget coordinates to global
image coordinates. -/
def Canvas.to_image_coords (pos : Int × Int) : Int × Int :=
  (pos.1 * VIEW_SCALE, pos.2 * VIEW_SCALE)

/-- `Canvas.get_page_at` (lines 211-216): floor-divide the global y by the
page height, clamp below to 0 and then above to `len(pages) - 1`; the local
y is the Python remainder (sign of the divisor, hence `Int.fmod`). -/
def Canvas.get_page_at (c : Canvas) (global_y : Int) : Int × Int :=
  let index := global_y.fdiv IMG_HEIGHT
  let index := if index < 0 then 0 else index
  let index := if (c.pages.length : Int) ≤ index then (c.pages.length : Int) - 1 else index
  (index, global_y.fmod IMG_HEIGHT)

/-- The undo-stack insertion of `Canvas.save_state` (lines 227-232): pop the
oldest entry when at capacity, then append the new snapshot.  Stated
generically in the entry type; `Canvas.save_state` instantiates it with
page-list snapshots. -/
def pushBounded {α : Type} (stack : List α) (x : α) : List α :=
  (if UNDO_LIMIT ≤ stack.length then stack.drop 1 else stack) ++ [x]

/-- `Canvas.save_state` (lines 226-232): push the smart-cloned page list
onto the bounded undo stack. -/
def Canvas.save_state (c : Canvas) : Canvas :=
  { c with undo_stack := pushBounded c.undo_stack (c.pages.map Page.clone) }

/-- Update the page at a given index, leaving the list unchanged when the
index is out of range.  All Python call sites index with a value that is in
range for a non-empty list (it comes from `get_page_at` or a range check),
so the fallback branch is never taken on the reachable states considered
below. -/
def modifyPage (pages : List Page) (i : Nat) (f : Page → Page) : List Page :=
  match pages[i]? with
  | some p => pages.set i (f p)
  | none => pages

/-- The active-page scan of `Canvas.undo` (lines 239-242): iterate over the
pages, remembering the index of the last one that is not compressed;
`-1` when all are compressed. -/
def scan_active_from (i : Nat) (acc : Int) : List Page → Int
  | [] => acc
  | p :: rest =>
      scan_active_from (i + 1) (if p.is_compressed = false then (i : Int) else acc) rest

/-- The full scan, starting at index 0 with accumulator `-1`. -/
def scan_active (pages : List Page) : Int :=
  scan_active_from 0 (-1) pages

/-- `Canvas.undo` (lines 234-252): pop the most recent snapshot (if any),
make it the live page list, recompute the active index by scanning, and if
no page is active promote the last page as a fallback. -/
def Canvas.undo (c : Canvas) : Canvas :=
  match c.undo_stack.getLast? with
  | none => c
  | some snapshot =>
    let pages := snapshot
    let ai := scan_active pages
    let pages := if ai = -1 ∧ pages ≠ [] then
        modifyPage pages (pages.length - 1) Page.decompress
      else pages
    let ai := if ai = -1 ∧ pages ≠ [] then (pages.length : Int) - 1 else ai
    { c with pages := pages
             active_page_index := ai
             undo_stack := c.undo_stack.dropLast }

/-- `Canvas.reset_to_a4` (lines 254-260): clear the undo stack and replace
the document with a single blank active page. -/
def Canvas.reset_to_a4 (c : Canvas) : Canvas :=
  { c with pages := [Page.new none]
           active_page_index := 0
           undo_stack := [] }

/-- `Canvas.add_page` (lines 262-276): snapshot, compress the old active
page when its index is in range, append a blank page, and point the active
index at it. -/
def Canvas.add_page (c : Canvas) : Canvas :=
  let c := c.save_state
  let pgs :=
    if 0 ≤ c.active_page_index ∧ c.active_page_index < (c.pages.length : Int) then
      modifyPage c.pages c.active_page_index.toNat Page.compress
    else c.pages
  let pgs := pgs ++ [Page.new none]
  { c with pages := pgs
           active_page_index := (pgs.length : Int) - 1 }

/-- The page-switch block shared by `Canvas.mousePressEvent` (lines
333-337), `Canvas.paste_floating_selection` (lines 299-303) and
`Canvas.mouseReleaseEvent` (lines 405-409): compress the current active
page when its index is in range, decompress the requested page, and move
the active index.  On an empty page list the Python `self.pages[page_idx]`
raises `IndexError` before any mutation, so the canvas is returned
unchanged. -/
def Canvas.page_switch (c : Canvas) (page_idx : Int) : Canvas :=
  if c.pages.isEmpty then c
  else
    let pgs :=
      if 0 ≤ c.active_page_index ∧ c.active_page_index < (c.pages.length : Int) then
        modifyPage c.pages c.active_page_index.toNat Page.compress
      else c.pages
    let pgs := modifyPage pgs page_idx.toNat Page.decompress
    { c with pages := pgs
             active_page_index := page_idx }

/-- The spec operation `ensureActive(index)`: the guarded page switch, a
no-op when the index is already active, exactly as each Python call site
guards the block with `if page_idx != self.active_page_index`. -/
def Canvas.ensure_active (c : Canvas) (page_idx : Int) : Canvas :=
  if page_idx = c.active_page_index then c else c.page_switch page_idx

/-- `Canvas.mousePressEvent` for the pen/eraser tools (lines 327-352,
restricted to the `'pen'`/`'eraser'` branch; the selection branches touch
only selection state that no claim mentions): resolve the pressed point,
switch pages if needed, snapshot, and start the stroke.  On an empty page
list with a required switch, the Python page switch raises `IndexError`
and the whole handler aborts with the canvas unchanged. -/
def Canvas.mousePressEvent_pen (c : Canvas) (pos : Int × Int) : Canvas :=
  let g := Canvas.to_image_coords pos
  let page_idx := (c.get_page_at g.2).1
  if c.pages.isEmpty ∧ page_idx ≠ c.active_page_index then c
  else
    let c := c.ensure_active page_idx
    let c := c.save_state
    { c with drawing := true, last_point_img := g }

/-- `Canvas.mouseMoveEvent` for the pen/eraser tools while drawing (lines
354-392, `'pen'`/`'eraser'` branch): draw a segment on the active page when
the segment stays on it, then remember the point.  On an empty page list
`self.pages[page_idx]` raises `IndexError` and the handler aborts
unchanged. -/
def Canvas.mouseMoveEvent_pen (c : Canvas) (pos : Int × Int) : Canvas :=
  let g := Canvas.to_image_coords pos
  if c.drawing then
    if c.pages.isEmpty then c
    else
      let pr := c.get_page_at g.2
      let page_idx := pr.1
      let local_y := pr.2
      let c :=
        if page_idx = c.active_page_index then
          let prev := c.get_page_at c.last_point_img.2
          if prev.1 = page_idx then
            let stroke := fun p =>
              Page.draw_line p (c.last_point_img.1, prev.2) (g.1, local_y)
            { c with pages := modifyPage c.pages page_idx.toNat stroke }
          else c
        else c
      { c with last_point_img := g }
  else c

/-- `Canvas.mouseReleaseEvent` for the pen/eraser tools (lines 429-434):
stop drawing and refresh the active page preview when the active index is
in range. -/
def Canvas.mouseReleaseEvent_pen (c : Canvas) : Canvas :=
  let c := { c with drawing := false }
  if 0 ≤ c.active_page_index ∧ c.active_page_index < (c.pages.length : Int) then
    { c with pages := modifyPage c.pages c.active_page_index.toNat Page.update_preview }
  else c

/-- Count of pages holding an uncompressed high-resolution raster buffer,
across the live page store and every snapshot on the undo stack: the
"resident raw raster memory" of the capacity discussion in the spec,
measured in page-sized buffers. -/
def rasterCount (c : Canvas) : Nat :=
  c.pages.countP (fun p => p.high_res_pixmap.isSome) +
    (c.undo_stack.map (fun s => s.countP (fun p => p.high_res_pixmap.isSome))).sum

/-- The externally triggered core operations: a press/move/release of the
pen or eraser tool at a widget position, the Add-Page command, an explicit
snapshot, undo, and reset. -/
inductive Op : Type
  | press (pos : Int × Int)
  | move (pos : Int × Int)
  | release
  | addPage
  | saveState
  | undo
  | reset

/-- Dispatch one operation. -/
def Canvas.applyOp (c : Canvas) : Op → Canvas
  | Op.press pos => c.mousePressEvent_pen pos
  | Op.move pos => c.mouseMoveEvent_pen pos
  | Op.release => c.mouseReleaseEvent_pen
  | Op.addPage => c.add_page
  | Op.saveState => c.save_state
  | Op.undo => c.undo
  | Op.reset => c.reset_to_a4

/-- Run a sequence of operations. -/
def Canvas.applyOps (c : Canvas) (ops : List Op) : Canvas :=
  ops.foldl Canvas.applyOp c

/-- Well-formedness of one page: the raster buffer is absent exactly on
compressed pages (the mutually-exclusive-representation invariant of the
spec's data model). -/
def PageWF (p : Page) : Prop :=
  (p.is_compressed = true → p.high_res_pixmap = none) ∧
    (p.is_compressed = false → p.high_res_pixmap.isSome = true)

/-- Well-formedness of a page list. -/
def PagesWF (l : List Page) : Prop := ∀ p ∈ l, PageWF p

/-- The single-Active property of a live page list relative to an active
index: every page that is not compressed sits at the active index. -/
def SAt (l : List Page) (ai : Int) : Prop :=
  ∀ i, (h : i < l.length) → l[i].is_compressed = false → (i : Int) = ai

/-- The single-Active property of a stored snapshot, which carries no
active index of its own: at most one page is uncompressed. -/
def SnapSA (l : List Page) : Prop :=
  ∀ i, (hi : i < l.length) → ∀ j, (hj : j < l.length) →
    l[i].is_compressed = false → l[j].is_compressed = false → i = j

/-- The document invariant maintained by all core operations: well-formed
pages, a single Active page tracked by the index, well-formed snapshots
with at most one uncompressed page each, and a bounded stack. -/
def Inv (c : Canvas) : Prop :=
  PagesWF c.pages ∧ SAt c.pages c.active_page_index ∧
    (∀ s ∈ c.undo_stack, PagesWF s ∧ SnapSA s) ∧
    c.undo_stack.length ≤ UNDO_LIMIT

/-- The non-emptiness invariant: the live page list and every stored
snapshot are non-empty. -/
def InvNE (c : Canvas) : Prop :=
  c.pages ≠ [] ∧ ∀ s ∈ c.undo_stack, s ≠ []

instance (p : Page) : Decidable (PageWF p) := by
  unfold PageWF; infer_instance

instance (l : List Page) : Decidable (PagesWF l) := by
  unfold PagesWF; infer_instance

instance (l : List Page) (ai : Int) : Decidable (SAt l ai) := by
  unfold SAt; infer_instance

instance (l : List Page) : Decidable (SnapSA l) := by
  unfold SnapSA; infer_instance

instance (c : Canvas) : Decidable (Inv c) := by
  unfold Inv; infer_instance

instance (c : Canvas) : Decidable (InvNE c) := by
  unfold InvNE; infer_instance

/-- The §8.7 scenario, step 1: three Add-Page commands on a freshly
constructed canvas. -/
def scenarioAdds : Canvas :=
  ((Canvas.init.add_page).add_page).add_page

/-- The §8.7 scenario, step 2: a pen stroke on page 0 — press at widget
point (50, 50) (global y = 100, on page 0), drag to (60, 60), release. -/
def scenarioDraw : Canvas :=
  ((scenarioAdds.mousePressEvent_pen (50, 50)).mouseMoveEvent_pen (60, 60)).mouseReleaseEvent_pen

/-- The §8.7 scenario, step 3: the first undo. -/
def scenarioUndo1 : Canvas := scenarioDraw.undo

/-- The §8.7 scenario, step 4: the second undo. -/
def scenarioUndo2 : Canvas := scenarioUndo1.undo

/-- Six pairwise distinct page-list snapshots, used to exhibit the FIFO
eviction of the undo stack on concrete data. -/
def sixSnapshots : List (List Page) :=
  (List.range 6).map (fun k => List.replicate k (Page.new none))

/-
Reference-level model for the copy-on-write sharing claims.  Here pixel
buffers and byte blobs live in explicit append-only heaps and a page holds
indices into them, so that sharing (identity of the backing allocation, as
opposed to mere value equality) is observable: two pages alias a blob
exactly when they hold the same index.  Python object identity maps to
heap index; creating a `QPixmap`/`QByteArray` maps to appending a fresh
cell.  No operation of src/main.py ever writes to an existing compressed
blob or preview — `Page.compress` builds a fresh `QByteArray` and a fresh
scaled preview — which the model reflects by only ever appending.
-/
namespace Sharing

/-- The heaps of live buffer objects: high-resolution rasters, previews and
compressed byte blobs.  An index into the corresponding list is an object
reference. -/
structure Store : Type where
  rasters : List Raster
  previews : List PreviewImg
  blobs : List Bytes
deriving DecidableEq

/-- Allocate a raster object. -/
def Store.allocRaster (st : Store) (r : Raster) : Store × Nat :=
  ({ st with rasters := st.rasters ++ [r] }, st.rasters.length)

/-- Allocate a preview object. -/
def Store.allocPreview (st : Store) (pv : PreviewImg) : Store × Nat :=
  ({ st with previews := st.previews ++ [pv] }, st.previews.length)

/-- Allocate a byte-blob object. -/
def Store.allocBlob (st : Store) (b : Bytes) : Store × Nat :=
  ({ st with blobs := st.blobs ++ [b] }, st.blobs.length)

/-- A page at the reference level: the same fields as `Page`, but holding
references into the store instead of values. -/
structure RPage : Type where
  high_res_pixmap : Option Nat
  compressed_data : Option Nat
  preview_pixmap : Nat
  is_compressed : Bool
deriving DecidableEq

/-- Reference validity of a page in a store. -/
def RPage.WFIn (p : RPage) (st : Store) : Prop :=
  (∀ ri ∈ p.high_res_pixmap, ri < st.rasters.length) ∧
    p.preview_pixmap < st.previews.length ∧
    (∀ bi ∈ p.compressed_data, bi < st.blobs.length)

instance (p : RPage) (st : Store) : Decidable (p.WFIn st) := by
  unfold RPage.WFIn; infer_instance

/-- `Page.__init__` with no bitmap: allocate a fresh blank raster and a
fresh preview. -/
def RPage.new (st : Store) : Store × RPage :=
  let a1 := st.allocRaster Raster.blank
  let a2 := a1.1.allocPreview (PreviewImg.plain Raster.blank)
  (a2.1,
   { high_res_pixmap := some a1.2
     compressed_data := none
     preview_pixmap := a2.2
     is_compressed := false })

/-- `Page.compress` at the reference level: a fresh watermarked preview and
a fresh byte blob are allocated (the Python code builds a new scaled
pixmap and a new `QByteArray`); no existing heap cell is written. -/
def RPage.compress (st : Store) (p : RPage) : Store × RPage :=
  if p.is_compressed then (st, p)
  else
    match p.high_res_pixmap with
    | none => (st, p)
    | some ri =>
      let r := st.rasters.getD ri Raster.blank
      let a1 := st.allocPreview (PreviewImg.stamped r)
      let a2 := a1.1.allocBlob (pngEncode r)
      (a2.1,
       { high_res_pixmap := none
         compressed_data := some a2.2
         preview_pixmap := a1.2
         is_compressed := true })

/-- `Page.clone` at the reference level.  The Python body first runs
`Page()` (allocating a fresh blank raster and preview that the compressed
branch immediately abandons), then either copies the two references of a
compressed page — sharing the blob and preview — or allocates independent
copies of an active page's raster and preview. -/
def RPage.clone (st : Store) (p : RPage) : Store × RPage :=
  let a0 := RPage.new st
  let st := a0.1
  let fresh := a0.2
  if p.is_compressed then
    (st,
     { fresh with
         high_res_pixmap := none
         compressed_data := p.compressed_data
         preview_pixmap := p.preview_pixmap
         is_compressed := true })
  else
    let ri := match p.high_res_pixmap with
      | some ri => ri
      | none => 0
    let a1 := st.allocRaster (st.rasters.getD ri Raster.blank)
    let a2 := a1.1.allocPreview (a1.1.previews.getD p.preview_pixmap (PreviewImg.plain Raster.blank))
    (a2.1,
     { fresh with
         high_res_pixmap := some a1.2
         compressed_data := none
         preview_pixmap := a2.2
         is_compressed := false })

/-- A tiny concrete store for witnesses: one raster, one preview, one
blob. -/
def demoStore : Store :=
  { rasters := [Raster.blank]
    previews := [PreviewImg.plain Raster.blank]
    blobs := [pngEncode Raster.blank] }

/-- A concrete compressed page referencing `demoStore` blob 0. -/
def demoCompressed : RPage :=
  { high_res_pixmap := none
    compressed_data := some 0
    preview_pixmap := 0
    is_compressed := true }

/-- A concrete active page referencing `demoStore` raster 0. -/
def demoActive : RPage :=
  { high_res_pixmap := some 0
    compressed_data := none
    preview_pixmap := 0
    is_compressed := false }

end Sharing

/-
General helper lemmas.
-/

theorem modifyPage_length (pages : List Page) (i : Nat) (f : Page → Page) :
    (modifyPage pages i f).length = pages.length := by
  unfold modifyPage
  split <;> simp

theorem fmod_H_nonneg (y : Int) : 0 ≤ y.fmod IMG_HEIGHT := by
  rw [Int.fmod_eq_emod y (by norm_num [IMG_HEIGHT])]
  exact Int.emod_nonneg y (by norm_num [IMG_HEIGHT])

theorem fmod_H_lt (y : Int) : y.fmod IMG_HEIGHT < IMG_HEIGHT :=
  Int.fmod_lt_of_pos y (by norm_num [IMG_HEIGHT])

theorem fdiv_fmod_H (y : Int) : IMG_HEIGHT * y.fdiv IMG_HEIGHT + y.fmod IMG_HEIGHT = y :=
  Int.fdiv_add_fmod y IMG_HEIGHT

theorem get_page_at_unfold (c : Canvas) (y : Int) :
    c.get_page_at y =
      (if (c.pages.length : Int) ≤ (if y.fdiv IMG_HEIGHT < 0 then 0 else y.fdiv IMG_HEIGHT)
       then (c.pages.length : Int) - 1
       else if y.fdiv IMG_HEIGHT < 0 then 0 else y.fdiv IMG_HEIGHT,
       y.fmod IMG_HEIGHT) := rfl

theorem foldl_pushBounded_drop {α : Type} (xs : List α) :
    List.foldl pushBounded ([] : List α) xs = xs.drop (xs.length - UNDO_LIMIT) := by
  induction xs using List.reverseRecOn with
  | nil => rfl
  | append_singleton ys x ih =>
    rw [List.foldl_append, ih]
    simp only [List.foldl_cons, List.foldl_nil, UNDO_LIMIT]
    unfold pushBounded UNDO_LIMIT
    have hlen : (ys.drop (ys.length - 5)).length = ys.length - (ys.length - 5) :=
      List.length_drop _ _
    by_cases h : 5 ≤ (ys.drop (ys.length - 5)).length
    · rw [if_pos h]
      have h5 : 5 ≤ ys.length := by omega
      rw [List.drop_drop]
      have hidx : (ys ++ [x]).length - 5 = ys.length + 1 - 5 := by
        simp
      rw [hidx]
      rw [List.drop_append_of_le_length (by omega)]
      have : ys.length - 5 + 1 = ys.length + 1 - 5 := by omega
      rw [this]
    · rw [if_neg h]
      have h5 : ys.length < 5 := by omega
      have h0 : ys.length - 5 = 0 := by omega
      have h1 : (ys ++ [x]).length - 5 = 0 := by simp; omega
      rw [h0, h1, List.drop_zero, List.drop_zero]

theorem getElem_eq_of_getElem?_eq {α : Type} (l1 l2 : List α) (j : Nat)
    (h : l1[j]? = l2[j]?) (h1 : j < l1.length) (h2 : j < l2.length) :
    l1[j] = l2[j] := by
  rw [List.getElem?_eq_getElem h1, List.getElem?_eq_getElem h2] at h
  exact Option.some.inj h

theorem getElem_congr_list {α : Type} (l1 l2 : List α) (h : l1 = l2) (j : Nat)
    (h1 : j < l1.length) (h2 : j < l2.length) : l1[j] = l2[j] := by
  subst h
  rfl

theorem modifyPage_getElem?_self (pages : List Page) (i : Nat) (f : Page → Page)
    (h : i < pages.length) :
    (modifyPage pages i f)[i]? = some (f pages[i]) := by
  unfold modifyPage
  rw [List.getElem?_eq_getElem h]
  rw [List.getElem?_set]
  simp [h]

theorem modifyPage_getElem?_ne (pages : List Page) (i : Nat) (f : Page → Page) (j : Nat)
    (hne : i ≠ j) :
    (modifyPage pages i f)[j]? = pages[j]? := by
  unfold modifyPage
  cases hp : pages[i]? with
  | none => rfl
  | some p =>
    rw [List.getElem?_set]
    simp [hne]

theorem modifyPage_ne_nil (pages : List Page) (i : Nat) (f : Page → Page)
    (h : pages ≠ []) : modifyPage pages i f ≠ [] := by
  have hl := modifyPage_length pages i f
  intro hc
  rw [hc] at hl
  simp at hl
  exact h (List.eq_nil_of_length_eq_zero hl.symm)

theorem PagesWF_modifyPage (pages : List Page) (i : Nat) (f : Page → Page)
    (hwf : PagesWF pages) (hf : ∀ p, PageWF p → PageWF (f p)) :
    PagesWF (modifyPage pages i f) := by
  unfold modifyPage
  cases hp : pages[i]? with
  | none => exact hwf
  | some p =>
    intro q hq
    rcases List.mem_or_eq_of_mem_set hq with hq | hq
    · exact hwf q hq
    · subst hq
      have hip : p ∈ pages := by
        rcases List.getElem?_eq_some_iff.mp hp with ⟨hlt, he⟩
        exact he ▸ List.getElem_mem hlt
      exact hf p (hwf p hip)

theorem PageWF_new (r : Option Raster) : PageWF (Page.new r) := by
  unfold PageWF Page.new
  cases r <;> simp

theorem PageWF_compress (p : Page) (h : PageWF p) : PageWF p.compress := by
  unfold Page.compress
  split_ifs with hc
  · exact h
  · cases hr : p.high_res_pixmap with
    | none => exact h
    | some r => exact ⟨fun _ => rfl, fun hfalse => by simp at hfalse⟩

theorem compress_is_compressed (p : Page) (h : PageWF p) :
    (p.compress).is_compressed = true := by
  unfold Page.compress
  split_ifs with hc
  · simpa using hc
  · cases hr : p.high_res_pixmap with
    | none =>
      exfalso
      have h2 := h.2 (by simpa using hc)
      rw [hr] at h2
      simp at h2
    | some r => rfl

theorem PageWF_decompress (p : Page) (h : PageWF p) : PageWF p.decompress := by
  unfold Page.decompress
  split_ifs with hc
  · cases hb : p.compressed_data with
    | none => exact h
    | some b => exact ⟨fun hfalse => by simp at hfalse, fun _ => rfl⟩
  · exact h

theorem PageWF_clone (p : Page) (h : PageWF p) : PageWF p.clone := by
  unfold Page.clone
  split_ifs with hc
  · exact ⟨fun _ => rfl, fun hfalse => by simp at hfalse⟩
  · refine ⟨fun htrue => by simp at htrue, fun _ => ?_⟩
    exact h.2 (by simpa using hc)

theorem clone_is_compressed (p : Page) : (p.clone).is_compressed = p.is_compressed := by
  unfold Page.clone
  split_ifs with hc
  · simp [hc]
  · simp [Bool.not_eq_true] at hc
    simp [hc]

theorem clone_raster_isSome (p : Page) (h : PageWF p) :
    (p.clone).high_res_pixmap.isSome = p.high_res_pixmap.isSome := by
  unfold Page.clone
  split_ifs with hc
  · rw [h.1 (by simpa using hc)]
  · rfl

theorem PageWF_draw_line (p : Page) (a b : Int × Int) (h : PageWF p) :
    PageWF (p.draw_line a b) := by
  unfold Page.draw_line
  cases hr : p.high_res_pixmap with
  | none => exact h
  | some r =>
    refine ⟨fun htrue => ?_, fun _ => rfl⟩
    have := h.1 htrue
    rw [hr] at this
    simp at this

theorem draw_line_is_compressed (p : Page) (a b : Int × Int) :
    (p.draw_line a b).is_compressed = p.is_compressed := by
  unfold Page.draw_line
  cases p.high_res_pixmap <;> rfl

theorem PageWF_update_preview (p : Page) (h : PageWF p) : PageWF p.update_preview := by
  unfold Page.update_preview
  cases hr : p.high_res_pixmap with
  | none => exact h
  | some r =>
    refine ⟨fun htrue => ?_, fun _ => rfl⟩
    have := h.1 htrue
    rw [hr] at this
    simp at this

theorem update_preview_is_compressed (p : Page) :
    (p.update_preview).is_compressed = p.is_compressed := by
  unfold Page.update_preview
  cases p.high_res_pixmap <;> rfl

theorem scan_active_from_all_compressed (l : List Page) (start : Nat) (acc : Int)
    (h : ∀ i, (hi : i < l.length) → l[i].is_compressed = true) :
    scan_active_from start acc l = acc := by
  induction l generalizing start acc with
  | nil => rfl
  | cons p rest ih =>
    unfold scan_active_from
    have hp : p.is_compressed = true := h 0 (by simp)
    rw [hp]
    simp only [Bool.true_eq_false, if_false]
    exact ih _ _ (fun i hi => h (i + 1) (by simpa using Nat.succ_lt_succ hi))

theorem scan_active_from_unique (l : List Page) (start : Nat) (acc : Int) (j0 : Nat)
    (hj0 : j0 < l.length) (huncomp : l[j0].is_compressed = false)
    (huniq : ∀ j, (hj : j < l.length) → l[j].is_compressed = false → j = j0) :
    scan_active_from start acc l = (start : Int) + j0 := by
  induction l generalizing start acc j0 with
  | nil => simp at hj0
  | cons p rest ih =>
    unfold scan_active_from
    cases j0 with
    | zero =>
      have hp : p.is_compressed = false := huncomp
      rw [hp]
      simp only [if_pos rfl]
      rw [scan_active_from_all_compressed]
      · simp
      · intro i hi
        by_contra hic
        have := huniq (i + 1) (by simpa using Nat.succ_lt_succ hi)
          (by simpa using hic)
        simp at this
    | succ k =>
      have hp : p.is_compressed = true := by
        by_contra hpc
        have := huniq 0 (by simp) (by simpa using hpc)
        simp at this
      rw [hp]
      simp only [Bool.true_eq_false, if_false]
      have hk : k < rest.length := by simpa using Nat.lt_of_succ_lt_succ hj0
      have hrk : rest[k].is_compressed = false := by simpa using huncomp
      have huniq2 : ∀ j, (hj : j < rest.length) → rest[j].is_compressed = false → j = k := by
        intro j hj hjc
        have := huniq (j + 1) (by simpa using Nat.succ_lt_succ hj) (by simpa using hjc)
        omega
      rw [ih _ _ k hk hrk huniq2]
      push_cast
      ring

theorem scan_active_nonneg_of_uncompressed (l : List Page) (start : Nat) (acc : Int)
    (j : Nat) (hj : j < l.length) (hjc : l[j].is_compressed = false) :
    0 ≤ scan_active_from start acc l := by
  induction l generalizing start acc j with
  | nil => simp at hj
  | cons p rest ih =>
    unfold scan_active_from
    cases j with
    | zero =>
      by_cases hex : ∃ i, ∃ hi : i < rest.length, rest[i].is_compressed = false
      · rcases hex with ⟨i, hi, hic⟩
        exact ih _ _ i hi hic
      · push_neg at hex
        rw [scan_active_from_all_compressed]
        · have hp : p.is_compressed = false := hjc
          rw [hp]
          simp
        · intro i hi
          have := hex i hi
          simpa using this
    | succ k =>
      have hk : k < rest.length := by simpa using Nat.lt_of_succ_lt_succ hj
      exact ih _ _ k hk (by simpa using hjc)

theorem countP_le_one_of_unique {α : Type} (l : List α) (p : α → Bool)
    (h : ∀ i, (hi : i < l.length) → ∀ j, (hj : j < l.length) →
      p l[i] = true → p l[j] = true → i = j) :
    l.countP p ≤ 1 := by
  induction l with
  | nil => simp
  | cons a t ih =>
    rw [List.countP_cons]
    by_cases hpa : p a = true
    · have ht : t.countP p = 0 := by
        rw [List.countP_eq_zero]
        intro x hx
        rcases List.mem_iff_getElem.mp hx with ⟨n, hn, he⟩
        intro hpx
        have := h (n + 1) (by simpa using Nat.succ_lt_succ hn) 0 (by simp)
          (by simpa [he] using hpx) (by simpa using hpa)
        simp at this
      rw [ht]
      simp [hpa]
    · have ht : t.countP p ≤ 1 := by
        apply ih
        intro i hi j hj hpi hpj
        have := h (i + 1) (by simpa using Nat.succ_lt_succ hi)
          (j + 1) (by simpa using Nat.succ_lt_succ hj)
          (by simpa using hpi) (by simpa using hpj)
        omega
      simp [hpa]
      exact ht

theorem pushBounded_mem {α : Type} (stack : List α) (x y : α)
    (h : y ∈ pushBounded stack x) : y ∈ stack ∨ y = x := by
  unfold pushBounded at h
  rcases List.mem_append.mp h with h | h
  · split_ifs at h with hc
    · exact Or.inl (List.mem_of_mem_drop h)
    · exact Or.inl h
  · exact Or.inr (List.mem_singleton.mp h)

theorem pushBounded_length {α : Type} (stack : List α) (x : α)
    (h : stack.length ≤ UNDO_LIMIT) : (pushBounded stack x).length ≤ UNDO_LIMIT := by
  unfold pushBounded UNDO_LIMIT at *
  split_ifs with hc
  · simp
    omega
  · simp
    omega

theorem modifyPage_getElem_self (pages : List Page) (i : Nat) (f : Page → Page)
    (h : i < pages.length) (h2 : i < (modifyPage pages i f).length) :
    (modifyPage pages i f)[i] = f pages[i] := by
  have hq := modifyPage_getElem?_self pages i f h
  rw [List.getElem?_eq_getElem h2] at hq
  exact Option.some.inj hq

theorem modifyPage_getElem_ne (pages : List Page) (i : Nat) (f : Page → Page) (j : Nat)
    (hne : i ≠ j) (h2 : j < (modifyPage pages i f).length) (h3 : j < pages.length) :
    (modifyPage pages i f)[j] = pages[j] := by
  have hq := modifyPage_getElem?_ne pages i f j hne
  rw [List.getElem?_eq_getElem h2, List.getElem?_eq_getElem h3] at hq
  exact Option.some.inj hq

theorem page_switch_eq (c : Canvas) (idx : Int) (hne : c.pages.isEmpty = false) :
    c.page_switch idx =
      { c with
          pages := modifyPage
            (if 0 ≤ c.active_page_index ∧ c.active_page_index < (c.pages.length : Int)
             then modifyPage c.pages c.active_page_index.toNat Page.compress
             else c.pages)
            idx.toNat Page.decompress
          active_page_index := idx } := by
  unfold Canvas.page_switch
  rw [hne]
  simp

theorem page_switch_inv (c : Canvas) (idx : Int)
    (hwf : PagesWF c.pages) (hsa : SAt c.pages c.active_page_index)
    (h0 : 0 ≤ idx) (h1 : idx < (c.pages.length : Int)) :
    (c.page_switch idx).pages.length = c.pages.length ∧
    PagesWF (c.page_switch idx).pages ∧
    SAt (c.page_switch idx).pages idx ∧
    (c.page_switch idx).active_page_index = idx := by
  have hlen0 : 0 < c.pages.length := by omega
  have hne : c.pages.isEmpty = false := by
    cases hp : c.pages with
    | nil => rw [hp] at hlen0; simp at hlen0
    | cons a t => rfl
  rw [page_switch_eq c idx hne]
  set pgs1 := if 0 ≤ c.active_page_index ∧ c.active_page_index < (c.pages.length : Int)
      then modifyPage c.pages c.active_page_index.toNat Page.compress
      else c.pages with hpgs1
  have len1 : pgs1.length = c.pages.length := by
    rw [hpgs1]; split_ifs <;> simp [modifyPage_length]
  have wf1 : PagesWF pgs1 := by
    rw [hpgs1]; split_ifs
    · exact PagesWF_modifyPage _ _ _ hwf PageWF_compress
    · exact hwf
  have hall : ∀ j, (hj : j < pgs1.length) → pgs1[j].is_compressed = true := by
    intro j hj
    have hjlen : j < c.pages.length := len1 ▸ hj
    by_cases hr : 0 ≤ c.active_page_index ∧ c.active_page_index < (c.pages.length : Int)
    · have hpg : pgs1 = modifyPage c.pages c.active_page_index.toNat Page.compress := by
        rw [hpgs1, if_pos hr]
      have hj2 : j < (modifyPage c.pages c.active_page_index.toNat Page.compress).length := by
        rw [modifyPage_length]; exact hjlen
      rw [getElem_congr_list pgs1 _ hpg j hj hj2]
      by_cases hji : j = c.active_page_index.toNat
      · subst hji
        rw [modifyPage_getElem_self c.pages _ Page.compress (by omega) hj2]
        exact compress_is_compressed _ (hwf _ (List.getElem_mem (by omega)))
      · rw [modifyPage_getElem_ne c.pages _ Page.compress j (fun he => hji he.symm) hj2 hjlen]
        by_contra hjc
        rw [Bool.not_eq_true] at hjc
        have := hsa j hjlen hjc
        apply hji
        omega
    · have hpg : pgs1 = c.pages := by rw [hpgs1, if_neg hr]
      rw [getElem_congr_list pgs1 _ hpg j hj hjlen]
      by_contra hjc
      rw [Bool.not_eq_true] at hjc
      have := hsa j hjlen hjc
      apply hr
      constructor <;> omega
  refine ⟨?_, ?_, ?_, rfl⟩
  · show (modifyPage pgs1 idx.toNat Page.decompress).length = c.pages.length
    rw [modifyPage_length, len1]
  · show PagesWF (modifyPage pgs1 idx.toNat Page.decompress)
    exact PagesWF_modifyPage _ _ _ wf1 PageWF_decompress
  · show SAt (modifyPage pgs1 idx.toNat Page.decompress) idx
    intro i hi hic
    have hi1 : i < pgs1.length := by
      rw [modifyPage_length] at hi; exact hi
    by_cases hii : i = idx.toNat
    · subst hii
      omega
    · rw [modifyPage_getElem_ne pgs1 _ Page.decompress i (fun he => hii he.symm) hi hi1] at hic
      rw [hall i hi1] at hic
      cases hic

theorem ensure_active_inv (c : Canvas) (idx : Int)
    (hwf : PagesWF c.pages) (hsa : SAt c.pages c.active_page_index)
    (hrange : idx = c.active_page_index ∨ (0 ≤ idx ∧ idx < (c.pages.length : Int))) :
    (c.ensure_active idx).pages.length = c.pages.length ∧
    PagesWF (c.ensure_active idx).pages ∧
    SAt (c.ensure_active idx).pages (c.ensure_active idx).active_page_index := by
  unfold Canvas.ensure_active
  split_ifs with he
  · exact ⟨rfl, hwf, hsa⟩
  · rcases hrange with h | ⟨h0, h1⟩
    · exact absurd h he
    · have h := page_switch_inv c idx hwf hsa h0 h1
      refine ⟨h.1, h.2.1, ?_⟩
      rw [h.2.2.2]
      exact h.2.2.1

theorem demote_all_compressed (pages : List Page) (ai : Int)
    (hwf : PagesWF pages) (hsa : SAt pages ai) (pgs1 : List Page)
    (hpg : pgs1 = if 0 ≤ ai ∧ ai < (pages.length : Int)
        then modifyPage pages ai.toNat Page.compress else pages) :
    pgs1.length = pages.length ∧ PagesWF pgs1 ∧
      (∀ j, (hj : j < pgs1.length) → pgs1[j].is_compressed = true) := by
  have len1 : pgs1.length = pages.length := by
    rw [hpg]; split_ifs <;> simp [modifyPage_length]
  refine ⟨len1, ?_, ?_⟩
  · rw [hpg]; split_ifs
    · exact PagesWF_modifyPage _ _ _ hwf PageWF_compress
    · exact hwf
  · intro j hj
    have hjlen : j < pages.length := len1 ▸ hj
    by_cases hr : 0 ≤ ai ∧ ai < (pages.length : Int)
    · have hpg2 : pgs1 = modifyPage pages ai.toNat Page.compress := by
        rw [hpg, if_pos hr]
      have hj2 : j < (modifyPage pages ai.toNat Page.compress).length := by
        rw [modifyPage_length]; exact hjlen
      rw [getElem_congr_list pgs1 _ hpg2 j hj hj2]
      by_cases hji : j = ai.toNat
      · subst hji
        rw [modifyPage_getElem_self pages _ Page.compress (by omega) hj2]
        exact compress_is_compressed _ (hwf _ (List.getElem_mem (by omega)))
      · rw [modifyPage_getElem_ne pages _ Page.compress j (fun he => hji he.symm) hj2 hjlen]
        by_contra hjc
        rw [Bool.not_eq_true] at hjc
        have := hsa j hjlen hjc
        apply hji
        omega
    · have hpg2 : pgs1 = pages := by rw [hpg, if_neg hr]
      rw [getElem_congr_list pgs1 _ hpg2 j hj hjlen]
      by_contra hjc
      rw [Bool.not_eq_true] at hjc
      have := hsa j hjlen hjc
      apply hr
      constructor <;> omega

theorem snapshot_WF (l : List Page) (hwf : PagesWF l) : PagesWF (l.map Page.clone) := by
  intro p hp
  rcases List.mem_map.mp hp with ⟨q, hq, he⟩
  rw [← he]
  exact PageWF_clone q (hwf q hq)

theorem snapshot_SnapSA (l : List Page) (ai : Int) (hsa : SAt l ai) :
    SnapSA (l.map Page.clone) := by
  intro i hi j hj hic hjc
  rw [List.getElem_map, clone_is_compressed] at hic hjc
  have h1 := hsa i (by simpa using hi) hic
  have h2 := hsa j (by simpa using hj) hjc
  omega

theorem Inv_reset (c : Canvas) : Inv c.reset_to_a4 := by
  unfold Inv Canvas.reset_to_a4
  refine ⟨?_, ?_, ?_, ?_⟩
  · intro p hp
    rw [List.mem_singleton] at hp
    subst hp
    exact PageWF_new none
  · intro i h hic
    simp only [List.length_singleton] at h
    dsimp only
    omega
  · intro s hs
    simp at hs
  · simp [UNDO_LIMIT]

theorem Inv_save_state (c : Canvas) (h : Inv c) : Inv c.save_state := by
  obtain ⟨hwf, hsa, hstack, hlen⟩ := h
  unfold Canvas.save_state
  refine ⟨hwf, hsa, ?_, ?_⟩
  · intro s hs
    rcases pushBounded_mem _ _ _ hs with hs | hs
    · exact hstack s hs
    · subst hs
      exact ⟨snapshot_WF _ hwf, snapshot_SnapSA _ _ hsa⟩
  · exact pushBounded_length _ _ hlen

theorem Inv_add_page (c : Canvas) (h : Inv c) : Inv c.add_page := by
  have h1 := Inv_save_state c h
  obtain ⟨hwf, hsa, hstack, hlen⟩ := h1
  unfold Canvas.add_page Canvas.save_state at *
  dsimp only at *
  set pgs1 := if 0 ≤ c.active_page_index ∧ c.active_page_index < (c.pages.length : Int)
      then modifyPage c.pages c.active_page_index.toNat Page.compress
      else c.pages with hpgs1
  have hd := demote_all_compressed c.pages c.active_page_index hwf hsa pgs1 hpgs1
  obtain ⟨len1, wf1, hall⟩ := hd
  refine ⟨?_, ?_, hstack, hlen⟩
  · intro p hp
    rcases List.mem_append.mp hp with hp | hp
    · exact wf1 p hp
    · rw [List.mem_singleton] at hp
      subst hp
      exact PageWF_new none
  · intro i hi hic
    have hi2 : i < pgs1.length + 1 := by simpa using hi
    by_cases hlast : i = pgs1.length
    · subst hlast
      simp [len1]
    · have hi1 : i < pgs1.length := by omega
      rw [List.getElem_append_left hi1] at hic
      rw [hall i hi1] at hic
      cases hic

theorem all_compressed_of_scan_neg (snap : List Page) (hscan : scan_active snap = -1) :
    ∀ i, (hi : i < snap.length) → snap[i].is_compressed = true := by
  intro i hi
  by_contra hic
  rw [Bool.not_eq_true] at hic
  have := scan_active_nonneg_of_uncompressed snap 0 (-1) i hi hic
  unfold scan_active at hscan
  omega

theorem Inv_undo (c : Canvas) (h : Inv c) : Inv c.undo := by
  obtain ⟨hwf, hsa, hstack, hlen⟩ := h
  unfold Canvas.undo
  cases hg : c.undo_stack.getLast? with
  | none => exact ⟨hwf, hsa, hstack, hlen⟩
  | some snap =>
    have hmem : snap ∈ c.undo_stack :=
      List.mem_of_mem_getLast? (by rw [hg]; exact rfl)
    obtain ⟨hswf, hssa⟩ := hstack snap hmem
    dsimp only
    have hstack2 : ∀ s ∈ c.undo_stack.dropLast, PagesWF s ∧ SnapSA s := by
      intro s hs
      exact hstack s (List.Sublist.mem hs (List.dropLast_sublist _))
    have hlen2 : c.undo_stack.dropLast.length ≤ UNDO_LIMIT := by
      rw [List.length_dropLast]
      omega
    by_cases hscan : scan_active snap = -1
    · by_cases hsnil : snap = []
      · have hcond : ¬ (scan_active snap = -1 ∧ snap ≠ []) := by
          intro hc
          exact hc.2 hsnil
        rw [if_neg hcond]
        have hcond2 : ¬ (scan_active snap = -1 ∧ snap ≠ []) := hcond
        rw [if_neg hcond2]
        refine ⟨hswf, ?_, hstack2, hlen2⟩
        intro i hi hic
        subst hsnil
        simp at hi
      · have hcond : scan_active snap = -1 ∧ snap ≠ [] := ⟨hscan, hsnil⟩
        rw [if_pos hcond]
        have hne2 : modifyPage snap (snap.length - 1) Page.decompress ≠ [] :=
          modifyPage_ne_nil snap _ Page.decompress hsnil
        have hcond2 : scan_active snap = -1 ∧
            modifyPage snap (snap.length - 1) Page.decompress ≠ [] := ⟨hscan, hne2⟩
        rw [if_pos hcond2]
        have hall := all_compressed_of_scan_neg snap hscan
        have hpos : 0 < snap.length := List.length_pos.mpr hsnil
        refine ⟨PagesWF_modifyPage _ _ _ hswf PageWF_decompress, ?_, hstack2, hlen2⟩
        intro i hi hic
        have hil : i < snap.length := by
          rw [modifyPage_length] at hi; exact hi
        have hml := modifyPage_length snap (snap.length - 1) Page.decompress
        dsimp only
        by_cases hlast : i = snap.length - 1
        · omega
        · rw [modifyPage_getElem_ne snap _ Page.decompress i
            (fun he => hlast he.symm) hi hil] at hic
          rw [hall i hil] at hic
          cases hic
    · have hcond : ¬ (scan_active snap = -1 ∧ snap ≠ []) := by
        intro hc
        exact hscan hc.1
      rw [if_neg hcond]
      have hcond2 : ¬ (scan_active snap = -1 ∧ snap ≠ []) := hcond
      rw [if_neg hcond2]
      refine ⟨hswf, ?_, hstack2, hlen2⟩
      by_cases hex : ∃ j, ∃ hj : j < snap.length, snap[j].is_compressed = false
      · rcases hex with ⟨j0, hj0, hj0c⟩
        have huniq : ∀ j, (hj : j < snap.length) → snap[j].is_compressed = false → j = j0 := by
          intro j hj hjc
          exact hssa j hj j0 hj0 hjc hj0c
        have hscan2 : scan_active snap = (0 : Int) + j0 :=
          scan_active_from_unique snap 0 (-1) j0 hj0 hj0c huniq
        intro i hi hic
        have := huniq i hi hic
        dsimp only
        omega
      · exfalso
        apply hscan
        apply scan_active_from_all_compressed
        intro i hi
        by_contra hic
        rw [Bool.not_eq_true] at hic
        exact hex ⟨i, hi, hic⟩

theorem get_page_at_index_range (c : Canvas) (y : Int) (hne : c.pages ≠ []) :
    0 ≤ (c.get_page_at y).1 ∧ (c.get_page_at y).1 < (c.pages.length : Int) := by
  have hpos : 0 < c.pages.length := List.length_pos.mpr hne
  rw [get_page_at_unfold]
  dsimp only
  constructor <;> split_ifs <;> omega

theorem page_switch_stack (c : Canvas) (idx : Int) :
    (c.page_switch idx).undo_stack = c.undo_stack := by
  unfold Canvas.page_switch
  split_ifs <;> rfl

theorem ensure_active_stack (c : Canvas) (idx : Int) :
    (c.ensure_active idx).undo_stack = c.undo_stack := by
  unfold Canvas.ensure_active
  split_ifs with h
  · rfl
  · exact page_switch_stack c idx

theorem page_switch_length (c : Canvas) (idx : Int) :
    (c.page_switch idx).pages.length = c.pages.length := by
  unfold Canvas.page_switch
  by_cases he : c.pages.isEmpty = true
  · rw [if_pos he]
  · rw [if_neg he]
    dsimp only
    rw [modifyPage_length]
    by_cases hc : 0 ≤ c.active_page_index ∧ c.active_page_index < (c.pages.length : Int)
    · rw [if_pos hc, modifyPage_length]
    · rw [if_neg hc]

theorem ensure_active_length (c : Canvas) (idx : Int) :
    (c.ensure_active idx).pages.length = c.pages.length := by
  unfold Canvas.ensure_active
  split_ifs with h
  · rfl
  · exact page_switch_length c idx

theorem Inv_press (c : Canvas) (pos : Int × Int) (h : Inv c) :
    Inv (c.mousePressEvent_pen pos) := by
  obtain ⟨hwf, hsa, hstack, hlen⟩ := h
  unfold Canvas.mousePressEvent_pen
  dsimp only
  split_ifs with habort
  · exact ⟨hwf, hsa, hstack, hlen⟩
  · set pi := (c.get_page_at (Canvas.to_image_coords pos).2).1 with hpi
    have hrange : pi = c.active_page_index ∨
        (0 ≤ pi ∧ pi < (c.pages.length : Int)) := by
      by_cases hne : c.pages = []
      · left
        by_contra hc
        apply habort
        constructor
        · rw [hne]; rfl
        · exact hc
      · right
        exact get_page_at_index_range c _ hne
    have h2 := ensure_active_inv c pi hwf hsa hrange
    have h3 : Inv (c.ensure_active pi) := by
      refine ⟨h2.2.1, h2.2.2, ?_, ?_⟩
      · rw [ensure_active_stack]
        exact hstack
      · rw [ensure_active_stack]
        exact hlen
    have h4 := Inv_save_state _ h3
    exact h4

theorem SAt_modifyPage_flag (l : List Page) (i : Nat) (f : Page → Page) (ai : Int)
    (hf : ∀ p, (f p).is_compressed = p.is_compressed) (hsa : SAt l ai) :
    SAt (modifyPage l i f) ai := by
  intro j hj hjc
  have hjl : j < l.length := by
    rw [modifyPage_length] at hj; exact hj
  by_cases hij : i = j
  · subst hij
    rw [modifyPage_getElem_self l i f hjl hj, hf] at hjc
    exact hsa i hjl hjc
  · rw [modifyPage_getElem_ne l i f j hij hj hjl] at hjc
    exact hsa j hjl hjc

theorem Inv_move (c : Canvas) (pos : Int × Int) (h : Inv c) :
    Inv (c.mouseMoveEvent_pen pos) := by
  obtain ⟨hwf, hsa, hstack, hlen⟩ := h
  unfold Canvas.mouseMoveEvent_pen
  dsimp only
  split_ifs with hd hne hpi hprev
  · exact ⟨hwf, hsa, hstack, hlen⟩
  · refine ⟨?_, ?_, hstack, hlen⟩
    · exact PagesWF_modifyPage _ _ _ hwf (fun p hp => PageWF_draw_line p _ _ hp)
    · exact SAt_modifyPage_flag _ _ _ _ (fun p => draw_line_is_compressed p _ _) hsa
  · exact ⟨hwf, hsa, hstack, hlen⟩
  · exact ⟨hwf, hsa, hstack, hlen⟩
  · exact ⟨hwf, hsa, hstack, hlen⟩

theorem Inv_release (c : Canvas) (h : Inv c) : Inv c.mouseReleaseEvent_pen := by
  obtain ⟨hwf, hsa, hstack, hlen⟩ := h
  unfold Canvas.mouseReleaseEvent_pen
  dsimp only
  split_ifs with hr
  · refine ⟨?_, ?_, hstack, hlen⟩
    · exact PagesWF_modifyPage _ _ _ hwf PageWF_update_preview
    · exact SAt_modifyPage_flag _ _ _ _ update_preview_is_compressed hsa
  · exact ⟨hwf, hsa, hstack, hlen⟩

theorem Inv_applyOp (c : Canvas) (op : Op) (h : Inv c) : Inv (c.applyOp op) := by
  cases op with
  | press pos => exact Inv_press c pos h
  | move pos => exact Inv_move c pos h
  | release => exact Inv_release c h
  | addPage => exact Inv_add_page c h
  | saveState => exact Inv_save_state c h
  | undo => exact Inv_undo c h
  | reset => exact Inv_reset c

theorem Inv_applyOps (c : Canvas) (ops : List Op) (h : Inv c) :
    Inv (c.applyOps ops) := by
  unfold Canvas.applyOps
  induction ops generalizing c with
  | nil => exact h
  | cons op rest ih =>
    rw [List.foldl_cons]
    exact ih _ (Inv_applyOp c op h)

theorem countP_raster_eq (l : List Page) (hwf : PagesWF l) :
    l.countP (fun p => p.high_res_pixmap.isSome) =
      l.countP (fun p => !p.is_compressed) := by
  apply List.countP_congr
  intro p hp
  obtain ⟨h1, h2⟩ := hwf p hp
  cases hcomp : p.is_compressed with
  | true => rw [h1 hcomp]; simp [hcomp]
  | false => rw [h2 hcomp]; simp [hcomp]

theorem SAt_count_le_one (l : List Page) (ai : Int) (hsa : SAt l ai) :
    l.countP (fun p => !p.is_compressed) ≤ 1 := by
  apply countP_le_one_of_unique
  intro i hi j hj hpi hpj
  rw [Bool.not_eq_eq_eq_not] at hpi hpj
  have h1 := hsa i hi (by simpa using hpi)
  have h2 := hsa j hj (by simpa using hpj)
  omega

theorem SnapSA_count_le_one (l : List Page) (hsa : SnapSA l) :
    l.countP (fun p => !p.is_compressed) ≤ 1 := by
  apply countP_le_one_of_unique
  intro i hi j hj hpi hpj
  rw [Bool.not_eq_eq_eq_not] at hpi hpj
  exact hsa i hi j hj (by simpa using hpi) (by simpa using hpj)

theorem rasterCount_le_of_Inv (c : Canvas) (h : Inv c) :
    rasterCount c ≤ 1 + UNDO_LIMIT := by
  obtain ⟨hwf, hsa, hstack, hlen⟩ := h
  unfold rasterCount
  have h1 : c.pages.countP (fun p => p.high_res_pixmap.isSome) ≤ 1 := by
    rw [countP_raster_eq _ hwf]
    exact SAt_count_le_one _ _ hsa
  have h2 : ∀ x ∈ c.undo_stack.map
      (fun s => s.countP (fun p => p.high_res_pixmap.isSome)), x ≤ 1 := by
    intro x hx
    rcases List.mem_map.mp hx with ⟨s, hs, he⟩
    obtain ⟨hswf, hssa⟩ := hstack s hs
    rw [← he, countP_raster_eq _ hswf]
    exact SnapSA_count_le_one _ hssa
  have h3 := List.sum_le_card_nsmul _ 1 h2
  rw [smul_eq_mul, mul_one, List.length_map] at h3
  omega

theorem InvNE_applyOp (c : Canvas) (op : Op) (h : InvNE c) : InvNE (c.applyOp op) := by
  obtain ⟨hne, hstack⟩ := h
  have hpos : 0 < c.pages.length := List.length_pos.mpr hne
  cases op with
  | press pos =>
    unfold Canvas.applyOp Canvas.mousePressEvent_pen
    dsimp only
    split_ifs with habort
    · exact ⟨hne, hstack⟩
    · unfold Canvas.save_state
      constructor
      · have h1 : (c.ensure_active
            (c.get_page_at (Canvas.to_image_coords pos).2).1).pages.length =
            c.pages.length := ensure_active_length c _
        intro hc
        rw [hc] at h1
        simp at h1
        omega
      · intro s hs
        rcases pushBounded_mem _ _ _ hs with hs | hs
        · rw [ensure_active_stack] at hs
          exact hstack s hs
        · subst hs
          have h1 : (c.ensure_active
              (c.get_page_at (Canvas.to_image_coords pos).2).1).pages.length =
              c.pages.length := ensure_active_length c _
          intro hc
          have : ((c.ensure_active
              (c.get_page_at (Canvas.to_image_coords pos).2).1).pages.map
                Page.clone).length = 0 := by rw [hc]; rfl
          rw [List.length_map, h1] at this
          omega
  | move pos =>
    unfold Canvas.applyOp Canvas.mouseMoveEvent_pen
    dsimp only
    split_ifs with hd hcne hpi hprev
    · exact ⟨hne, hstack⟩
    · constructor
      · dsimp only
        exact modifyPage_ne_nil _ _ _ hne
      · exact hstack
    · exact ⟨hne, hstack⟩
    · exact ⟨hne, hstack⟩
    · exact ⟨hne, hstack⟩
  | release =>
    unfold Canvas.applyOp Canvas.mouseReleaseEvent_pen
    dsimp only
    split_ifs with hr
    · constructor
      · exact modifyPage_ne_nil _ _ _ hne
      · exact hstack
    · exact ⟨hne, hstack⟩
  | addPage =>
    unfold Canvas.applyOp Canvas.add_page Canvas.save_state
    dsimp only
    constructor
    · simp
    · intro s hs
      rcases pushBounded_mem _ _ _ hs with hs | hs
      · exact hstack s hs
      · subst hs
        intro hc
        have : (c.pages.map Page.clone).length = 0 := by rw [hc]; rfl
        rw [List.length_map] at this
        omega
  | saveState =>
    unfold Canvas.applyOp Canvas.save_state
    refine ⟨hne, ?_⟩
    intro s hs
    rcases pushBounded_mem _ _ _ hs with hs | hs
    · exact hstack s hs
    · subst hs
      intro hc
      have : (c.pages.map Page.clone).length = 0 := by rw [hc]; rfl
      rw [List.length_map] at this
      omega
  | undo =>
    unfold Canvas.applyOp Canvas.undo
    cases hg : c.undo_stack.getLast? with
    | none => exact ⟨hne, hstack⟩
    | some snap =>
      have hmem : snap ∈ c.undo_stack :=
        List.mem_of_mem_getLast? (by rw [hg]; exact rfl)
      have hsnap : snap ≠ [] := hstack snap hmem
      constructor
      · dsimp only
        split_ifs with hcond
        · exact modifyPage_ne_nil _ _ _ hsnap
        · exact hsnap
      · intro s hs
        exact hstack s (List.Sublist.mem hs (List.dropLast_sublist _))
  | reset =>
    unfold Canvas.applyOp Canvas.reset_to_a4
    constructor
    · simp
    · intro s hs
      simp at hs

theorem InvNE_applyOps (c : Canvas) (ops : List Op) (h : InvNE c) :
    InvNE (c.applyOps ops) := by
  unfold Canvas.applyOps
  induction ops generalizing c with
  | nil => exact h
  | cons op rest ih =>
    rw [List.foldl_cons]
    exact ih _ (InvNE_applyOp c op h)

/-
Claim theorems.
-/

/-- C9: the coordinate mapper computes the floor of y by the page height,
clamped to the valid index range, with local offset the remainder of y by
the page height; on a document of at least two pages, global y = 2300
resolves to page 1 at local offset 54, y = 0 to (0, 0), and the exact page
boundary y = 2246 to (1, 0). -/
theorem get_page_at_resolve_correct (c : Canvas) (y : Int) (h2 : 2 ≤ c.pages.length) :
    c.get_page_at y =
      (min (max (y.fdiv IMG_HEIGHT) 0) ((c.pages.length : Int) - 1), y.fmod IMG_HEIGHT) ∧
    c.get_page_at 2300 = (1, 54) ∧
    c.get_page_at 0 = (0, 0) ∧
    c.get_page_at 2246 = (1, 0) := by
  have e1 : (2300:Int).fdiv IMG_HEIGHT = 1 := by decide
  have e2 : (2300:Int).fmod IMG_HEIGHT = 54 := by decide
  have e3 : (0:Int).fdiv IMG_HEIGHT = 0 := by decide
  have e4 : (0:Int).fmod IMG_HEIGHT = 0 := by decide
  have e5 : (2246:Int).fdiv IMG_HEIGHT = 1 := by decide
  have e6 : (2246:Int).fmod IMG_HEIGHT = 0 := by decide
  refine ⟨?_, ?_, ?_, ?_⟩
  · rw [get_page_at_unfold]
    simp only [Prod.mk.injEq]
    refine ⟨?_, trivial⟩
    split_ifs <;> omega
  · rw [get_page_at_unfold, e1, e2]
    simp only [Prod.mk.injEq]
    refine ⟨?_, trivial⟩
    split_ifs <;> omega
  · rw [get_page_at_unfold, e3, e4]
    simp only [Prod.mk.injEq]
    refine ⟨?_, trivial⟩
    split_ifs <;> omega
  · rw [get_page_at_unfold, e5, e6]
    simp only [Prod.mk.injEq]
    refine ⟨?_, trivial⟩
    split_ifs <;> omega

/-- C9 witness: the three concrete resolutions on a concrete two-page
document. -/
theorem get_page_at_resolve_correct_witness :
    (Canvas.init.add_page.add_page).get_page_at 2300 = (1, 54) ∧
    (Canvas.init.add_page.add_page).get_page_at 0 = (0, 0) ∧
    (Canvas.init.add_page.add_page).get_page_at 2246 = (1, 0) := by
  have h := get_page_at_resolve_correct (Canvas.init.add_page.add_page) 2300 (by decide)
  exact ⟨h.2.1, h.2.2.1, h.2.2.2⟩

/-- C10: the local offset returned by `get_page_at` is always the remainder
of y by the page height, even when the page index is clamped; for y at or
beyond the end of a non-empty document the result is the last page with
that remainder, so the inverse mapping does not recover y; and on an empty
page list the returned page index is -1. -/
theorem get_page_at_clamp_edges (c : Canvas) (y : Int) :
    (c.get_page_at y).2 = y.fmod IMG_HEIGHT ∧
    (c.pages ≠ [] → (c.pages.length : Int) * IMG_HEIGHT ≤ y →
      c.get_page_at y = ((c.pages.length : Int) - 1, y.fmod IMG_HEIGHT) ∧
      (c.get_page_at y).1 * IMG_HEIGHT + (c.get_page_at y).2 ≠ y) ∧
    (c.pages = [] → (c.get_page_at y).1 = -1) := by
  have hq := fdiv_fmod_H y
  have hr0 := fmod_H_nonneg y
  have hr1 := fmod_H_lt y
  have hH : IMG_HEIGHT = 2246 := rfl
  rw [hH] at hq hr1
  refine ⟨rfl, ?_, ?_⟩
  · intro hne hbig
    have hlen : 0 < c.pages.length := List.length_pos.mpr hne
    rw [hH] at hbig
    have hfst : (c.get_page_at y).1 = (c.pages.length : Int) - 1 := by
      rw [get_page_at_unfold]
      simp only [hH]
      split_ifs <;> omega
    refine ⟨?_, ?_⟩
    · rw [get_page_at_unfold]
      simp only [hH, Prod.mk.injEq]
      constructor
      · split_ifs <;> omega
      · trivial
    · rw [hfst, get_page_at_unfold]
      simp only [hH]
      omega
  · intro he
    rw [get_page_at_unfold]
    simp only [he, List.length_nil, Nat.cast_zero]
    split_ifs <;> omega

/-- C10 witness: the clamped resolution and failed inverse at y = 5000 on a
one-page document, and the -1 index on the empty initial document. -/
theorem get_page_at_clamp_edges_witness :
    ((Canvas.init.add_page).get_page_at 5000 =
        (((Canvas.init.add_page).pages.length : Int) - 1, (5000:Int).fmod IMG_HEIGHT) ∧
      ((Canvas.init.add_page).get_page_at 5000).1 * IMG_HEIGHT +
        ((Canvas.init.add_page).get_page_at 5000).2 ≠ 5000) ∧
    (Canvas.init.get_page_at 7).1 = -1 :=
  ⟨(get_page_at_clamp_edges (Canvas.init.add_page) 5000).2.1 (by decide) (by decide),
   (get_page_at_clamp_edges Canvas.init 7).2.2 (by decide)⟩

/-- C6: starting from an empty undo stack, pushing N > 5 snapshots through
the `save_state` insertion leaves exactly 5 entries, namely the 5 most
recent snapshots in order (FIFO eviction of the oldest), and the stack
length never exceeds 5 at any intermediate point. -/
theorem bounded_history (xs : List (List Page)) (h5 : 5 < xs.length) :
    (∀ c : Canvas, (c.save_state).undo_stack =
        pushBounded c.undo_stack (c.pages.map Page.clone)) ∧
    List.foldl pushBounded ([] : List (List Page)) xs = xs.drop (xs.length - 5) ∧
    (List.foldl pushBounded ([] : List (List Page)) xs).length = 5 ∧
    (∀ n : Nat, (List.foldl pushBounded ([] : List (List Page)) (xs.take n)).length ≤ 5) := by
  have hU : UNDO_LIMIT = 5 := rfl
  have h1 := foldl_pushBounded_drop xs
  rw [hU] at h1
  refine ⟨fun c => rfl, h1, ?_, ?_⟩
  · rw [h1, List.length_drop]; omega
  · intro n
    have h2 := foldl_pushBounded_drop (xs.take n)
    rw [hU] at h2
    rw [h2, List.length_drop]
    have := List.length_take n xs
    omega

/-- C6 witness: six distinct snapshots pushed in order leave the most
recent five, in order. -/
theorem bounded_history_witness :
    List.foldl pushBounded ([] : List (List Page)) sixSnapshots =
      sixSnapshots.drop (sixSnapshots.length - 5) ∧
    (List.foldl pushBounded ([] : List (List Page)) sixSnapshots).length = 5 := by
  have h := bounded_history sixSnapshots (by decide)
  exact ⟨h.2.1, h.2.2.1⟩

/-- C7: compressing an active page stores the lossless encoding of the raw
raster in `compressed_data` (so decode reproduces the raster bit-for-bit),
while the "compressed" visual marker is stamped only into the preview;
decompressing the compressed page restores exactly the original raster. -/
theorem compress_roundtrip_lossless (p : Page) (r : Raster)
    (hc : p.is_compressed = false) (hr : p.high_res_pixmap = some r) :
    (∀ R : Raster, pngDecode (pngEncode R) = R) ∧
    (p.compress).compressed_data = some (pngEncode r) ∧
    (p.compress).preview_pixmap = PreviewImg.stamped r ∧
    pngDecode (pngEncode r) = r ∧
    (p.compress).decompress.high_res_pixmap = some r ∧
    (p.compress).decompress.is_compressed = false := by
  refine ⟨fun R => rfl, ?_⟩
  unfold Page.compress Page.decompress
  rw [hc, hr]
  simp [pngEncode, pngDecode]

/-- C7 witness: the round trip on a concrete freshly created blank page. -/
theorem compress_roundtrip_lossless_witness :
    ((Page.new none).compress).compressed_data = some (pngEncode Raster.blank) ∧
    ((Page.new none).compress).decompress.high_res_pixmap = some Raster.blank := by
  have h := compress_roundtrip_lossless (Page.new none) Raster.blank (by decide) (by decide)
  exact ⟨h.2.1, h.2.2.2.2.1⟩

/-- C2 counterexample: on the one-page document produced by
`reset_to_a4`, where the active index is 0, `add_page` returns with the
active index equal to 1, not 0 — `add_page` does change `activeIndex`. -/
theorem add_page_active_index_cex :
    (Canvas.init.reset_to_a4).active_page_index = 0 ∧
    ((Canvas.init.reset_to_a4).add_page).active_page_index = 1 ∧
    ((Canvas.init.reset_to_a4).add_page).active_page_index ≠
      (Canvas.init.reset_to_a4).active_page_index := by decide

/-- C2 amended: for every page-store state, `add_page` appends exactly one
new blank page and sets `activeIndex` to the index of the newly appended
page (the previous length of the page list).  The theorem also records the
full frame effect on the page sequence, which substantiates "appends": at
every previous position the page is unchanged, except that the page at the
previously active index (when the position matches it, which can only
happen when that index was in range) is replaced by its compressed form. -/
theorem add_page_appends_one_and_moves_active (c : Canvas) :
    (c.add_page).pages.length = c.pages.length + 1 ∧
    (c.add_page).active_page_index = (c.pages.length : Int) ∧
    (c.add_page).pages.getLast? = some (Page.new none) ∧
    (∀ i, (hi : i < c.pages.length) →
      (c.add_page).pages[i]? =
        some (if (i : Int) = c.active_page_index
              then Page.compress c.pages[i]
              else c.pages[i])) := by
  unfold Canvas.add_page Canvas.save_state
  dsimp only
  set pgs1 := if 0 ≤ c.active_page_index ∧ c.active_page_index < (c.pages.length : Int)
      then modifyPage c.pages c.active_page_index.toNat Page.compress
      else c.pages with hpgs1
  have len1 : pgs1.length = c.pages.length := by
    rw [hpgs1]; split_ifs <;> simp [modifyPage_length]
  refine ⟨?_, ?_, ?_, ?_⟩
  · simp [len1]
  · simp [len1]
  · exact List.getLast?_concat _
  · intro i hi
    have hi1 : i < pgs1.length := by rw [len1]; exact hi
    rw [List.getElem?_append, if_pos hi1]
    by_cases hr : 0 ≤ c.active_page_index ∧ c.active_page_index < (c.pages.length : Int)
    · have hpg : pgs1 = modifyPage c.pages c.active_page_index.toNat Page.compress := by
        rw [hpgs1, if_pos hr]
      by_cases hii : i = c.active_page_index.toNat
      · subst hii
        rw [hpg, modifyPage_getElem?_self c.pages _ Page.compress (by omega)]
        have hcast : ((c.active_page_index.toNat : Int)) = c.active_page_index :=
          Int.toNat_of_nonneg hr.1
        simp [hcast]
      · rw [hpg, modifyPage_getElem?_ne c.pages _ Page.compress i (fun he => hii he.symm)]
        rw [List.getElem?_eq_getElem hi]
        have hne2 : ¬ ((i : Int) = c.active_page_index) := by omega
        simp [hne2]
    · have hpg : pgs1 = c.pages := by rw [hpgs1, if_neg hr]
      rw [hpg, List.getElem?_eq_getElem hi]
      have hne2 : ¬ ((i : Int) = c.active_page_index) := by omega
      simp [hne2]

/-- C3 counterexample: immediately after `Canvas.__init__` the page list is
empty (the `[Page()]` initializer is commented out in the source), and the
empty list even recurs on a reachable state: `add_page` on the fresh
canvas snapshots the empty document, and the following `undo` restores
it. -/
theorem pages_nonempty_after_init_cex :
    Canvas.init.pages = [] ∧ (Canvas.init.add_page).undo.pages = [] := by decide

/-- C4 counterexample: on the reachable state reached by `reset_to_a4`
followed by `add_page`, two page objects hold uncompressed high-resolution
rasters — the live blank page just appended and the deep-copied clone of
the previously active page inside the undo snapshot — so resident raw
raster memory is not bounded by one page. -/
theorem raster_count_cex :
    rasterCount ((Canvas.init.reset_to_a4).add_page) = 2 ∧
    ¬ rasterCount ((Canvas.init.reset_to_a4).add_page) ≤ 1 := by decide

/-- C5: on an initialized store (well-formed pages, the single-Active
invariant, at least one page), after any sequence of `ensure_active`
page-switch calls with in-range indices, at most one page in the live
store is uncompressed, and any such page sits at `activeIndex`. -/
theorem single_active_after_switches (c : Canvas) (L : List Int)
    (hne : c.pages ≠ []) (hwf : PagesWF c.pages) (hsa : SAt c.pages c.active_page_index)
    (hL : ∀ x ∈ L, 0 ≤ x ∧ x < (c.pages.length : Int)) :
    SAt (L.foldl Canvas.ensure_active c).pages
      (L.foldl Canvas.ensure_active c).active_page_index := by
  induction L generalizing c with
  | nil => exact hsa
  | cons x xs ih =>
    rw [List.foldl_cons]
    have hx := hL x (List.mem_cons_self x xs)
    have h := ensure_active_inv c x hwf hsa (Or.inr hx)
    apply ih
    · have hpos : 0 < (c.ensure_active x).pages.length := by
        rw [h.1]
        exact List.length_pos.mpr hne
      exact List.length_pos.mp hpos
    · exact h.2.1
    · exact h.2.2
    · intro y hy
      rw [h.1]
      exact hL y (List.mem_cons_of_mem x hy)

/-- C5 witness: two switches on the concrete three-page document built by
three `add_page` calls. -/
theorem single_active_after_switches_witness :
    SAt (([0, 1] : List Int).foldl Canvas.ensure_active scenarioAdds).pages
      (([0, 1] : List Int).foldl Canvas.ensure_active scenarioAdds).active_page_index :=
  single_active_after_switches scenarioAdds [0, 1]
    (by decide) (by decide) (by decide) (by decide)

/-- C3 amended: the page list is empty right after `Canvas.__init__`; but
from any state whose page list is non-empty and whose stored snapshots are
all non-empty (as established by `reset_to_a4`, or by the first `add_page`
on a store with an empty undo stack), the page list remains non-empty
under every sequence of the core operations (pen press/move/release, add
page, snapshot, undo, reset). -/
theorem pages_nonempty_reachable (c : Canvas) (ops : List Op) (h : InvNE c) :
    (c.applyOps ops).pages ≠ [] :=
  (InvNE_applyOps c ops h).1

/-- C3 witness: after `reset_to_a4`, an `add_page` followed by an `undo`
leaves a non-empty page list. -/
theorem pages_nonempty_reachable_witness :
    ((Canvas.init.reset_to_a4).applyOps [Op.addPage, Op.undo]).pages ≠ [] :=
  pages_nonempty_reachable (Canvas.init.reset_to_a4) [Op.addPage, Op.undo] (by decide)

/-- C4 amended: at every state reachable from an initialized document
(`reset_to_a4`) by core operations, at most one page of the live store
holds an uncompressed raster, each snapshot on the undo stack holds at
most one deep-copied raster, the stack holds at most 5 snapshots, and so
the total resident raw raster memory across the live store and the undo
stack is bounded by 1 + 5 page-sized buffers (not by one page, which the
counterexample refutes). -/
theorem raster_memory_bounded (c : Canvas) (ops : List Op) :
    ((c.reset_to_a4).applyOps ops).pages.countP
        (fun p => p.high_res_pixmap.isSome) ≤ 1 ∧
    (∀ s ∈ ((c.reset_to_a4).applyOps ops).undo_stack,
        s.countP (fun p => p.high_res_pixmap.isSome) ≤ 1) ∧
    ((c.reset_to_a4).applyOps ops).undo_stack.length ≤ UNDO_LIMIT ∧
    rasterCount ((c.reset_to_a4).applyOps ops) ≤ 1 + UNDO_LIMIT := by
  have h := Inv_applyOps (c.reset_to_a4) ops (Inv_reset c)
  obtain ⟨hwf, hsa, hstack, hlen⟩ := h
  refine ⟨?_, ?_, hlen, ?_⟩
  · rw [countP_raster_eq _ hwf]
    exact SAt_count_le_one _ _ hsa
  · intro s hs
    obtain ⟨hswf, hssa⟩ := hstack s hs
    rw [countP_raster_eq _ hswf]
    exact SnapSA_count_le_one _ hssa
  · exact rasterCount_le_of_Inv _ ⟨hwf, hsa, hstack, hlen⟩

/-- C1 counterexample: in the §8.7 scenario the state after the second
undo has two pages with page 1 active — not three pages with page 2
active as the claim states (the second undo restores the pre-image of the
third `add_page`, because the draw-time snapshot was taken after the page
switch and no snapshot of the 3-page state with page 2 active exists). -/
theorem scenario_undo_twice_cex :
    scenarioUndo2.pages.length = 2 ∧
    scenarioUndo2.active_page_index = 1 ∧
    ¬ (scenarioUndo2.pages.length = 3 ∧ scenarioUndo2.active_page_index = 2) := by decide

/-- C1 amended: in the §8.7 scenario — three `add_page` calls on the fresh
canvas give 3 blank pages with index 2 active; the pen press on page 0
promotes page 0, demotes page 2, and only then snapshots; the first undo
reverts the draw but not the promotion, leaving 3 blank pages with page 0
active; the second undo restores the pre-image of the third `add_page`,
leaving 2 blank pages with page 1 active. -/
theorem scenario_undo_twice :
    (scenarioAdds.pages.length = 3 ∧ scenarioAdds.active_page_index = 2 ∧
      scenarioAdds.pages.all Page.blank_content = true) ∧
    (scenarioDraw.pages.length = 3 ∧ scenarioDraw.active_page_index = 0 ∧
      scenarioDraw.pages.all Page.blank_content = false) ∧
    (scenarioUndo1.pages.length = 3 ∧ scenarioUndo1.active_page_index = 0 ∧
      scenarioUndo1.pages.all Page.blank_content = true ∧
      scenarioUndo1.pages.map Page.is_compressed = [false, true, true]) ∧
    (scenarioUndo2.pages.length = 2 ∧ scenarioUndo2.active_page_index = 1 ∧
      scenarioUndo2.pages.all Page.blank_content = true ∧
      scenarioUndo2.pages.map Page.is_compressed = [true, false]) := by decide

namespace Sharing

theorem compress_blobs_getElem? (st : Store) (q : RPage) (i : Nat)
    (hi : i < st.blobs.length) :
    ((RPage.compress st q).1).blobs[i]? = st.blobs[i]? := by
  unfold RPage.compress
  split_ifs with hq
  · rfl
  · cases hr : q.high_res_pixmap with
    | none => rfl
    | some ri =>
      dsimp only [Store.allocPreview, Store.allocBlob]
      rw [List.getElem?_append]
      simp [hi]

/-- C8: cloning a compressed page copies the state tag and shares — by
reference identity, with no byte copy (the blob heap is unchanged) — the
original's `compressed_data` blob and `preview_pixmap`; cloning an active
page allocates fresh, independent copies of the raster and preview with
the same contents; cloning never writes to any pre-existing heap cell (so
the cloned page is not mutated); and compressing a different, unrelated
page afterwards leaves the compressed clone's shared bytes unchanged,
because `compress` only allocates fresh cells. -/
theorem clone_copy_on_write (st : Store)
    (p : RPage) (hpc : p.is_compressed = true)
    (bi : Nat) (hpb : p.compressed_data = some bi) (hbi : bi < st.blobs.length)
    (pa : RPage) (hac : pa.is_compressed = false)
    (ra : Nat) (har : pa.high_res_pixmap = some ra) (hra : ra < st.rasters.length)
    (hpv : pa.preview_pixmap < st.previews.length)
    (q : RPage) :
    ((RPage.clone st p).2.is_compressed = true ∧
      (RPage.clone st p).2.compressed_data = p.compressed_data ∧
      (RPage.clone st p).2.compressed_data = some bi ∧
      (RPage.clone st p).2.preview_pixmap = p.preview_pixmap ∧
      (RPage.clone st p).1.blobs = st.blobs) ∧
    ((∀ i, i < st.rasters.length → (RPage.clone st p).1.rasters[i]? = st.rasters[i]?) ∧
      (∀ i, i < st.previews.length → (RPage.clone st p).1.previews[i]? = st.previews[i]?)) ∧
    ((RPage.clone st pa).2.high_res_pixmap = some (st.rasters.length + 1) ∧
      st.rasters.length + 1 ≠ ra ∧
      (RPage.clone st pa).1.rasters[st.rasters.length + 1]? = st.rasters[ra]? ∧
      (RPage.clone st pa).2.preview_pixmap = st.previews.length + 1 ∧
      st.previews.length + 1 ≠ pa.preview_pixmap ∧
      (RPage.clone st pa).1.previews[st.previews.length + 1]? =
        st.previews[pa.preview_pixmap]?) ∧
    ((RPage.compress (RPage.clone st p).1 q).1).blobs[bi]? = st.blobs[bi]? := by
  have hclp : RPage.clone st p =
      ({ st with rasters := st.rasters ++ [Raster.blank]
                 previews := st.previews ++ [PreviewImg.plain Raster.blank] },
       { high_res_pixmap := none
         compressed_data := p.compressed_data
         preview_pixmap := p.preview_pixmap
         is_compressed := true }) := by
    unfold RPage.clone RPage.new Store.allocRaster Store.allocPreview
    rw [if_pos hpc]
  have hcla : RPage.clone st pa =
      ({ st with
           rasters := (st.rasters ++ [Raster.blank]) ++
             [(st.rasters ++ [Raster.blank]).getD ra Raster.blank]
           previews := (st.previews ++ [PreviewImg.plain Raster.blank]) ++
             [(st.previews ++ [PreviewImg.plain Raster.blank]).getD pa.preview_pixmap
               (PreviewImg.plain Raster.blank)] },
       { high_res_pixmap := some ((st.rasters ++ [Raster.blank]).length)
         compressed_data := none
         preview_pixmap := (st.previews ++ [PreviewImg.plain Raster.blank]).length
         is_compressed := false }) := by
    unfold RPage.clone RPage.new Store.allocRaster Store.allocPreview
    rw [if_neg (by rw [hac]; simp), har]
  refine ⟨?_, ?_, ?_, ?_⟩
  · rw [hclp]
    exact ⟨rfl, rfl, hpb, rfl, rfl⟩
  · rw [hclp]
    constructor
    · intro i hi
      dsimp only
      rw [List.getElem?_append]
      simp [hi]
    · intro i hi
      dsimp only
      rw [List.getElem?_append]
      simp [hi]
  · rw [hcla]
    have hlen1 : (st.rasters ++ [Raster.blank]).length = st.rasters.length + 1 := by simp
    have hlen2 : (st.previews ++ [PreviewImg.plain Raster.blank]).length =
        st.previews.length + 1 := by simp
    refine ⟨by rw [hlen1], by omega, ?_, by rw [hlen2], by omega, ?_⟩
    · dsimp only
      have hv : (st.rasters ++ [Raster.blank]).getD ra Raster.blank =
          st.rasters[ra] := by
        rw [List.getD_append _ _ _ ra hra]
        exact List.getD_eq_getElem st.rasters Raster.blank hra
      rw [← hlen1, List.getElem?_concat_length, hv, List.getElem?_eq_getElem hra]
    · dsimp only
      have hv : (st.previews ++ [PreviewImg.plain Raster.blank]).getD pa.preview_pixmap
          (PreviewImg.plain Raster.blank) = st.previews[pa.preview_pixmap] := by
        rw [List.getD_append _ _ _ pa.preview_pixmap hpv]
        exact List.getD_eq_getElem st.previews (PreviewImg.plain Raster.blank) hpv
      rw [← hlen2, List.getElem?_concat_length, hv, List.getElem?_eq_getElem hpv]
  · have hbi2 : bi < (RPage.clone st p).1.blobs.length := by
      rw [hclp]
      exact hbi
    have h1 := compress_blobs_getElem? (RPage.clone st p).1 q bi hbi2
    rw [h1, hclp]

/-- C8 witness: the sharing conclusions on the concrete one-cell store. -/
theorem clone_copy_on_write_witness :
    (RPage.clone demoStore demoCompressed).2.compressed_data =
      demoCompressed.compressed_data ∧
    (RPage.clone demoStore demoCompressed).1.blobs = demoStore.blobs ∧
    ((RPage.compress (RPage.clone demoStore demoCompressed).1 demoActive).1).blobs[0]? =
      demoStore.blobs[0]? := by
  have h := clone_copy_on_write demoStore demoCompressed (by decide) 0 (by decide)
    (by decide) demoActive (by decide) 0 (by decide) (by decide) (by decide) demoActive
  exact ⟨h.1.2.1, h.1.2.2.2.2, h.2.2.2⟩

end Sharing

end NotesApp
